import Mathlib

/-!
Verification of the `http-file-headers` static-file response engine.

The definitions below are a shallow embedding of the Rust sources:
  * `src/range.rs`    — `Slice`, `Slice::merge`
  * `src/output.rs`   — `ContentRange`, `resolve_range`, `Head::from_meta`,
                        `FileWrapper::{new, read_chunk}`
  * `src/input.rs`    — `Input::try_path` outcome selection, MIME fallback
  * `src/accept_encoding.rs` — `parse_q`, `AcceptEncodingParser`, `Iter`
  * `src/etag.rs`     — URL-safe base64 render and decode of the 12-byte ETag

Machine integers (`u64`) are modelled as `Nat`; subtraction and addition
that can wrap in release builds are modelled explicitly with `wsub64` /
`wadd64` (Rust debug builds would panic at those points instead).
Rust functions that can panic are modelled as `Except Unit` values, the
`error` case encoding the panic.  Filesystem handles are modelled by a
byte-list plus cursor (`FileSt`); `io::Error` from the OS is outside the
scope of the verified properties.
-/

deriving instance DecidableEq for Except

/-- The `u64` modulus, 2^64. -/
def U64 : Nat := 18446744073709551616

/-- Release-mode `u64` subtraction `a - b` (wraps on underflow).
Valid model for `a, b < U64`. -/
def wsub64 (a b : Nat) : Nat := if b ≤ a then a - b else U64 - (b - a)

/-- Release-mode `u64` addition (wraps on overflow). -/
def wadd64 (a b : Nat) : Nat := (a + b) % U64

/-- `u64::saturating_add`. -/
def sat_add64 (a b : Nat) : Nat := min (a + b) (U64 - 1)

/-- `Slice` from `src/range.rs`: the normalized single byte-range request. -/
inductive Slice where
  | FromTo (x y : Nat)
  | AllFrom (x : Nat)
  | Last (n : Nat)
deriving DecidableEq

/-- `Slice::merge` from `src/range.rs` lines 51-89, translated arm by arm in
source order.  The Rust method mutates `self` and returns `bool`; here the
updated accumulator is returned as `some acc`, and `none` models `false`
(ranges that cannot be merged).  The `y1 + 1` / `y2 + 1` additions cannot
overflow `u64` on any input that reaches them (the earlier guards catch
`y = u64::MAX` first), so plain `Nat` addition is faithful. -/
def Slice.merge (self other : Slice) : Option Slice :=
  match self, other with
  | .FromTo x1 y1, .FromTo x2 y2 =>
    -- "contained range" arm: guard `x1 >= x2 && y1 <= y2`, body leaves self unchanged
    if x1 ≥ x2 ∧ y1 ≤ y2 then some (.FromTo x1 y1)
    -- "reverse contained range" arm: guard `x2 >= *x1 && y2 <= *y1`, body writes x2, y2
    else if x2 ≥ x1 ∧ y2 ≤ y1 then some (.FromTo x2 y2)
    -- "adjancent range" arm
    else if x2 ≥ x1 ∧ x2 ≤ y1 + 1 then some (.FromTo x1 y2)
    -- "reverse adjacent range" arm
    else if y2 + 1 ≥ x1 ∧ x2 < x1 then some (.FromTo x2 y1)
    else none
  | _, _ => none

/-- `ContentRange` from `src/output.rs` (the `end` field is named `end_`
because `end` is a Lean keyword). -/
structure ContentRange where
  start : Nat
  end_ : Nat
  file_size : Nat
deriving DecidableEq

/-- The `let range = match *inp_range { .. }` stage of `resolve_range`
(`src/output.rs` lines 347-385), factored out; the `return
Err(Output::InvalidRange)` early exits become `Except.error ()`.
The `e - s` subtraction is a `u64` operation modelled with release-mode
wrapping (`wsub64`); `(start + nbytes).saturating_sub(1)` is `Nat`
subtraction. -/
def resolve_slice (inp_range : Option Slice) (size : Nat) :
    Except Unit (Option ContentRange) :=
  match inp_range with
  | some (.FromTo s e) =>
    if s ≥ size then .error ()
    else
      let nbytes := min (size - s) (sat_add64 (wsub64 e s) 1)
      .ok (some { start := s, end_ := s + nbytes - 1, file_size := size })
  | some (.Last n0) =>
    let sn := if n0 > size then ((0 : Nat), size) else (size - n0, n0)
    .ok (some { start := sn.1, end_ := sn.1 + sn.2 - 1, file_size := size })
  | some (.AllFrom start) =>
    if start ≥ size then .error ()
    else .ok (some { start := start, end_ := size - 1, file_size := size })
  | none => .ok none

/-- `resolve_range` from `src/output.rs` lines 344-392: the slice stage
(`resolve_slice`) followed by the `let clen = match range { .. }`
computation, where `rng.end - rng.start + 1` is `u64` arithmetic
(release-mode wrapping, `wadd64` / `wsub64`). -/
def resolve_range (inp_range : Option Slice) (size : Nat) :
    Except Unit (Option ContentRange × Nat) :=
  match resolve_slice inp_range size with
  | .error e => .error e
  | .ok range =>
    let clen :=
      match range with
      | some rng => if size = 0 then 0 else wadd64 (wsub64 rng.end_ rng.start) 1
      | none => size
    .ok (range, clen)

/-- An ETag value: the 12 digest bytes (`Etag(pub [u8; 12])` in
`src/etag.rs`). -/
abbrev Etag := List Nat

/-- The fields of `Head` (`src/output.rs`) referenced by the verified
properties; `config`, `encoding`, `content_type`, `last_modified` and
`etag` carry no decision logic and are omitted. -/
structure HeadM where
  content_length : Nat
  range : Option ContentRange
  not_modified : Bool
deriving DecidableEq

/-- An opened file: its bytes and the cursor position. -/
structure FileSt where
  data : List Nat
  pos : Nat
deriving DecidableEq

/-- `File::read(&mut buf[..max])` on a regular file: the bytes returned. -/
def FileSt.read_data (f : FileSt) (max : Nat) : List Nat :=
  (f.data.drop f.pos).take max

/-- Cursor advance performed by `File::read`. -/
def FileSt.advance (f : FileSt) (n : Nat) : FileSt :=
  { f with pos := f.pos + n }

/-- `file.seek(SeekFrom::Current(-n))`. -/
def FileSt.seek_back (f : FileSt) (n : Nat) : FileSt :=
  { f with pos := f.pos - n }

/-- `FileWrapper` from `src/output.rs`. -/
structure FileWrapperM where
  head : HeadM
  file : FileSt
  bytes_left : Nat
deriving DecidableEq

/-- `FileWrapper::new` (`src/output.rs` lines 252-270): seek to the range
start and initialize `bytes_left` with `end - start + 1` (a `u64`
subtraction; well-defined whenever `start ≤ end_`, which `resolve_range`
guarantees except for the `Last(0)` corner with positive file size). -/
def FileWrapperM.new (head : HeadM) (data : List Nat) : FileWrapperM :=
  match head.range with
  | some rng =>
    { head := head, file := { data := data, pos := rng.start },
      bytes_left := rng.end_ - rng.start + 1 }
  | none =>
    { head := head, file := { data := data, pos := 0 },
      bytes_left := head.content_length }

/-- `Output` from `src/output.rs` (payloads restricted to the modelled
`Head`/`FileWrapper` data). -/
inductive OutputV where
  | NotFound
  | FileHead (head : HeadM)
  | NotModified (head : HeadM)
  | File (wrapper : FileWrapperM)
  | FileRange (wrapper : FileWrapperM)
  | Directory
  | InvalidMethod
  | InvalidRange
deriving DecidableEq

/-- `Result<Head, Output>` returned by `Head::from_meta`. -/
inductive MetaResult where
  | err (o : OutputV)
  | ok (head : HeadM)
deriving DecidableEq

/-- The `Head` built inside both `NotModified` early returns of
`Head::from_meta`: zero length, no range, `not_modified: true`. -/
def notModifiedHead : HeadM :=
  { content_length := 0, range := none, not_modified := true }

/-- The shared tail of `Head::from_meta`: `resolve_range(&inp.range, size)?`
followed by the `Ok(Head { .. })` construction. -/
def from_meta_resolve (range : Option Slice) (size : Nat) : MetaResult :=
  match resolve_range range size with
  | .error _ => .err .InvalidRange
  | .ok rc => .ok { content_length := rc.2, range := rc.1, not_modified := false }

/-- `Head::from_meta` from `src/output.rs` lines 173-235, after the
`mod_time` / `size` / `etag` bindings: `if_none` is `inp.if_none`,
`if_modified` is `inp.if_modified`, `mod_time` the (already
config/MIN_DATE-filtered) file modification time, `etag` the computed tag.
Timestamps are modelled as `Nat` (seconds since epoch); `SystemTime`
ordering is `≤` on those.  Note the source comparison on line 207 is
`last_mod <= x`, i.e. `if_modified_since ≤ mod_time`. -/
def from_meta (if_none : List Etag) (if_modified : Option Nat)
    (mod_time : Option Nat) (etag : Option Etag)
    (range : Option Slice) (size : Nat) : MetaResult :=
  if 0 < if_none.length then
    if if_none.any (fun x => decide (some x = etag)) then
      .err (.NotModified notModifiedHead)
    else from_meta_resolve range size
  else
    match if_modified with
    | some last_mod =>
      if (mod_time.map (fun x => decide (last_mod ≤ x))).getD false then
        .err (.NotModified notModifiedHead)
      else from_meta_resolve range size
    | none => from_meta_resolve range size

/-- `Mode` from `src/input.rs`. -/
inductive Mode where
  | Head
  | Get
  | InvalidMethod
  | InvalidRange
deriving DecidableEq

/-- `Input::try_path` from `src/input.rs` lines 171-189, after the open and
`fstat` succeeded on a regular file (`size = data.length`).  The
`InvalidMethod` / `InvalidRange` arms are `unreachable!()` in the source
(`probe_file` short-circuits them) and are modelled as `none`; every
reachable outcome is `some _`.  I/O failure of the constructor seek is
outside the model. -/
def try_path (mode : Mode) (if_none : List Etag) (if_modified : Option Nat)
    (mod_time : Option Nat) (etag : Option Etag) (range : Option Slice)
    (data : List Nat) : Option OutputV :=
  match from_meta if_none if_modified mod_time etag range data.length with
  | .err output => some output
  | .ok head =>
    match mode with
    | .InvalidMethod => none
    | .InvalidRange => none
    | .Head => some (.FileHead head)
    | .Get => some (.File (FileWrapperM.new head data))

/-- The MIME fallback in `Input::try_file` (`src/input.rs` lines 153-158):
`extension().and_then(to_str).and_then(get_mime_type_str).unwrap_or(..)`.
The external `mime_guess::get_mime_type_str` table is a parameter. -/
def try_file_ctype (get_mime_type_str : String → Option String)
    (ext : Option String) : String :=
  (ext.bind get_mime_type_str).getD "application/octed-stream"

/-- The invariant claimed for `resolve_range` (spec §3 "Invariants" and §8
"Range-header-size invariant"): an accepted range satisfies
`0 ≤ start ≤ end < file_size` and `content_length = end − start + 1`, with
the sole exception `file_size = 0` where the range is `(0,0,0)` and the
length 0. -/
def rangeInvariantClaim (slc : Slice) (size : Nat) : Prop :=
  ∀ rng clen, resolve_range (some slc) size = .ok (some rng, clen) →
    if size = 0 then rng = { start := 0, end_ := 0, file_size := 0 } ∧ clen = 0
    else rng.start ≤ rng.end_ ∧ rng.end_ < size ∧ rng.start + clen = rng.end_ + 1

/-- `slice::split(|&x| x == sep)` from Rust: splitting an empty slice
yields one empty piece, separators at the ends yield empty pieces. -/
def splitSep (sep : Nat) : List Nat → List (List Nat)
  | [] => [[]]
  | c :: rest =>
    let r := splitSep sep rest
    if c = sep then [] :: r
    else
      match r with
      | [] => [[c]]
      | h :: t => (c :: h) :: t

/-- ASCII whitespace, the fragment of `char::is_whitespace` relevant to
header values (space, tab, line feed, vertical tab, form feed, carriage
return). -/
def isWsp (c : Nat) : Bool :=
  c = 32 || c = 9 || c = 10 || c = 11 || c = 12 || c = 13

/-- `str::trim` on ASCII text, as a byte-list operation. -/
def trimBytes (l : List Nat) : List Nat :=
  ((l.dropWhile isWsp).reverse.dropWhile isWsp).reverse

/-- `str::from_utf8`, modelled on its ASCII fragment: ASCII bytes decode
to themselves.  Every token and grammar the callers compare against is
ASCII, so rejecting non-ASCII sequences here coincides with the source
behaviour on all inputs the verified properties quantify over. -/
def from_utf8M (l : List Nat) : Option (List Nat) :=
  if l.all (fun c => c < 128) then some l else none

/-- The digit loop of `parse_q` (`src/accept_encoding.rs` lines 111-120):
`val += (x - b0) * 10^(2-i)` over the bytes after `"q=0."`, `None` on a
non-digit. -/
def parse_q_digits : List Nat → Nat → Option Nat
  | [], _ => some 0
  | x :: rest, i =>
    if 48 ≤ x ∧ x ≤ 57 then
      match parse_q_digits rest (i + 1) with
      | some v => some ((x - 48) * 10 ^ (2 - i) + v)
      | none => none
    else none

/-- `parse_q` from `src/accept_encoding.rs` lines 92-134.  The byte values
113, 61, 49, 48, 46 are the characters of `"q="`, `"1"`, `"0"`, `"."`.
`Except.error ()` models an out-of-bounds index, which panics in Rust:
`qstr.as_bytes()[2]` is guarded only by `starts_with("q=") && len() <= 7`,
and `qstr.as_bytes()[3]` only by the length tests before it. -/
def parse_q (val : Option (List Nat)) : Except Unit (Option Nat) :=
  match val with
  | none => .ok (some 1000)
  | some qbytes =>
    match from_utf8M qbytes with
    | none => .ok none
    | some s0 =>
      let qstr := trimBytes s0
      if qstr.take 2 = [113, 61] ∧ qstr.length ≤ 7 then
        match qstr.get? 2 with
        | none => .error ()
        | some c2 =>
          if c2 = 49 then
            if qstr.length = 3 then .ok (some 1000)
            else
              match qstr.get? 3 with
              | none => .error ()
              | some c3 =>
                if c3 = 46 ∧ (qstr.drop 4).all (fun c => c = 48) then
                  .ok (some 1000)
                else .ok none
          else if c2 = 48 then
            if qstr.length = 3 then .ok (some 0)
            else
              match qstr.get? 3 with
              | none => .error ()
              | some c3 =>
                if c3 ≠ 46 then .ok none
                else
                  match parse_q_digits (qstr.drop 4) 0 with
                  | some v => .ok (some v)
                  | none => .ok none
          else .ok none
      else .ok none

/-- `Encoding` from `src/accept_encoding.rs` (the hidden `__Nonexhaustive`
variant is never constructed and is omitted).  Constructor order matters:
the derived Rust `Ord` (Brotli < Gzip < Identity) is `rank` below. -/
inductive Encoding where
  | Brotli
  | Gzip
  | Identity
deriving DecidableEq

/-- The derived `Ord` of `Encoding`: declaration order. -/
def Encoding.rank : Encoding → Nat
  | .Brotli => 0
  | .Gzip => 1
  | .Identity => 2

/-- The comparator of `AcceptEncodingParser::done`,
`qb.cmp(&qa).then(a.cmp(&b))`, as a total "comes before or ties" test:
descending q, ties broken by ascending encoding order. -/
def lePair (a b : Encoding × Nat) : Bool :=
  b.2 < a.2 || (a.2 = b.2 && a.1.rank ≤ b.1.rank)

/-- Insertion into a list sorted by `lePair`. -/
def insertSorted (a : Encoding × Nat) : List (Encoding × Nat) → List (Encoding × Nat)
  | [] => [a]
  | b :: rest => if lePair a b then a :: b :: rest else b :: insertSorted a rest

/-- `self.buf.sort_by(|&(a, qa), &(b, qb)| qb.cmp(&qa).then(a.cmp(&b)))`:
a stable insertion sort.  The comparator ties only on equal pairs, so any
sort by this total order produces the same list as the stable Rust sort. -/
def sortBuf : List (Encoding × Nat) → List (Encoding × Nat)
  | [] => []
  | a :: rest => insertSorted a (sortBuf rest)

/-- `AcceptEncodingParser` from `src/accept_encoding.rs`: the collected
`(encoding, q)` pairs and the `allow_any` flag. -/
structure AEState where
  buf : List (Encoding × Nat)
  allow_any : Bool
deriving DecidableEq

/-- `AcceptEncodingParser::new`. -/
def AEState.new : AEState := { buf := [], allow_any := true }

/-- `AcceptEncodingParser::add_chunk` (`src/accept_encoding.rs` lines
143-164).  The byte lists compared against are `"identity"`, `"br"`,
`"gzip"`, `"*"`; 59 is the semicolon.  The inner `Option (Option
Encoding)` mirrors the Rust `match enc` whose `_ => return` arm covers
both decoding failure and unknown tokens; a `parse_q` panic propagates. -/
def AEState.add_chunk (st : AEState) (chunk : List Nat) : Except Unit AEState :=
  let pieces := splitSep 59 chunk
  let enc0 := ((pieces.get? 0).bind from_utf8M).map trimBytes
  let encR : Option (Option Encoding) :=
    match enc0 with
    | some s =>
      if s = [105, 100, 101, 110, 116, 105, 116, 121] then some (some .Identity)
      else if s = [98, 114] then some (some .Brotli)
      else if s = [103, 122, 105, 112] then some (some .Gzip)
      else if s = [42] then some none
      else none
    | none => none
  match encR with
  | none => .ok st
  | some enc =>
    match parse_q (pieces.get? 1) with
    | .error e => .error e
    | .ok none => .ok st
    | .ok (some q) =>
      match enc, q with
      | none, 0 => .ok { st with allow_any := false }
      | none, _ => .ok st
      | some x, _ => .ok { st with buf := st.buf ++ [(x, q)] }

/-- `AcceptEncodingParser::add_header`: split the header value on commas
(byte 44) and feed each chunk. -/
def AEState.add_header (st : AEState) (header : List Nat) : Except Unit AEState :=
  (splitSep 44 header).foldlM AEState.add_chunk st

/-- `AcceptEncodingParser::done` (`src/accept_encoding.rs` lines 170-182):
sort, keep the `q != 0` entries, and write the first three over the
`[Identity; 3]` array; the remaining slots keep `Identity`.  The array
is modelled as the 3-element list of its cells. -/
def AEState.done (st : AEState) : List Encoding :=
  let sorted := sortBuf st.buf
  let firsts := (sorted.filter (fun p => p.2 ≠ 0)).take 3
  firsts.map Prod.fst ++ List.replicate (3 - firsts.length) Encoding.Identity

/-- The loop of `Iter::next` (`src/accept_encoding.rs` lines 74-90) run to
exhaustion: the flag records whether `Identity` was already yielded;
later `Identity` cells are skipped, everything else is yielded. -/
def iterGo : List Encoding → Bool → List Encoding
  | [], _ => []
  | .Identity :: rest, b =>
    if b then iterGo rest b else .Identity :: iterGo rest true
  | .Brotli :: rest, b => .Brotli :: iterGo rest b
  | .Gzip :: rest, b => .Gzip :: iterGo rest b

/-- The full iteration sequence of `AcceptEncoding::iter`. -/
def iterAE (l : List Encoding) : List Encoding := iterGo l false

/-- How many times `Identity` occurs in a yielded sequence. -/
def countIdentity : List Encoding → Nat
  | [] => 0
  | .Identity :: rest => countIdentity rest + 1
  | _ :: rest => countIdentity rest

/-- The result of `output.write(&buf[..bytes])` as seen by `read_chunk`:
the accepted byte count, or an I/O error. -/
inductive WriteRes where
  | ok (w : Nat)
  | err

/-- `FileWrapper::read_chunk` (`src/output.rs` lines 289-314): at most
`min(65536, bytes_left)` bytes are read; a short write seeks back the
unwritten tail, an error seeks back the whole chunk and is propagated
(`Except.error`); `bytes_left` drops by the accepted count.  The caller
guarantees `w ≤ bytes` for `WriteRes.ok w` (the source asserts it). -/
def FileWrapperM.read_chunk (s : FileWrapperM) (output : List Nat → WriteRes) :
    Except Unit Nat × FileWrapperM :=
  if s.bytes_left = 0 then (.ok 0, s)
  else
    let max := min 65536 s.bytes_left
    let buf := s.file.read_data max
    let f1 := s.file.advance buf.length
    match output buf with
    | .ok wbytes =>
      if wbytes ≠ buf.length then
        (.ok wbytes,
         { s with file := f1.seek_back (buf.length - wbytes),
                  bytes_left := s.bytes_left - wbytes })
      else
        (.ok wbytes, { s with file := f1, bytes_left := s.bytes_left - wbytes })
    | .err => (.error (), { s with file := f1.seek_back buf.length })

/-- The bytes the writer actually accepted during one `read_chunk` call:
the prefix of the chunk it reported written. -/
def FileWrapperM.chunk_delivered (s : FileWrapperM)
    (output : List Nat → WriteRes) : List Nat :=
  if s.bytes_left = 0 then []
  else
    let buf := s.file.read_data (min 65536 s.bytes_left)
    match output buf with
    | .ok wbytes => buf.take wbytes
    | .err => []

/-- Drive `read_chunk` once per writer in the list, collecting the
successful return values, the delivered bytes, and the final state. -/
def runChunks (s : FileWrapperM) :
    List (List Nat → WriteRes) → List Nat × List Nat × FileWrapperM
  | [] => ([], [], s)
  | w :: ws =>
    let d := s.chunk_delivered w
    match s.read_chunk w with
    | (.ok n, s1) =>
      let r := runChunks s1 ws
      (n :: r.1, d ++ r.2.1, r.2.2)
    | (.error _, s1) =>
      let r := runChunks s1 ws
      (r.1, d ++ r.2.1, r.2.2)

/-- The URL-safe base64 alphabet `A-Za-z0-9-_` of `src/etag.rs` as byte
values. -/
def CHARS : List Nat :=
  [65, 66, 67, 68, 69, 70, 71, 72, 73, 74, 75, 76, 77, 78, 79, 80, 81, 82,
   83, 84, 85, 86, 87, 88, 89, 90,
   97, 98, 99, 100, 101, 102, 103, 104, 105, 106, 107, 108, 109, 110, 111,
   112, 113, 114, 115, 116, 117, 118, 119, 120, 121, 122,
   48, 49, 50, 51, 52, 53, 54, 55, 56, 57, 45, 95]

/-- `base64triple` from `src/etag.rs` lines 64-78: pack three bytes into
`n` and emit four sixtet characters (`n >> 18 & 63` is `n / 262144 % 64`,
and so on).  The indices into `CHARS` are below 64, so `getD` never falls
back. -/
def base64triple (b0 b1 b2 : Nat) : List Nat :=
  let n := b0 * 65536 + b1 * 256 + b2
  [CHARS.getD (n / 262144 % 64) 0, CHARS.getD (n / 4096 % 64) 0,
   CHARS.getD (n / 64 % 64) 0, CHARS.getD (n % 64) 0]

/-- `decode_char` from `src/etag.rs` lines 81-90 (45 is the hyphen, 95
the underscore, then the digit, upper and lower ranges). -/
def decode_char (c : Nat) : Except Unit Nat :=
  if c = 45 then .ok 62
  else if c = 95 then .ok 63
  else if 48 ≤ c ∧ c ≤ 57 then .ok (c - 48 + 52)
  else if 65 ≤ c ∧ c ≤ 90 then .ok (c - 65)
  else if 97 ≤ c ∧ c ≤ 122 then .ok (c - 97 + 26)
  else .error ()

/-- `decode4` from `src/etag.rs` lines 93-108: decode four characters,
reassemble `n` and split it into three bytes.  The sequential `?` exits
of the source all carry the same `()` error. -/
def decode4 (c1 c2 c3 c4 : Nat) : Except Unit (Nat × Nat × Nat) :=
  match decode_char c1, decode_char c2, decode_char c3, decode_char c4 with
  | .ok d1, .ok d2, .ok d3, .ok d4 =>
    let n := d1 * 262144 + d2 * 4096 + d3 * 64 + d4
    .ok (n / 65536 % 256, n / 256 % 256, n % 256)
  | _, _, _, _ => .error ()

/-- The 16 characters of `impl Display for Etag` (`src/etag.rs` lines
110-119): `base64triple` over the four byte-triples of the 12-byte tag. -/
def etag_render (b : List Nat) : List Nat :=
  base64triple (b.getD 0 0) (b.getD 1 0) (b.getD 2 0) ++
  base64triple (b.getD 3 0) (b.getD 4 0) (b.getD 5 0) ++
  base64triple (b.getD 6 0) (b.getD 7 0) (b.getD 8 0) ++
  base64triple (b.getD 9 0) (b.getD 10 0) (b.getD 11 0)

/-- `Etag::decode_base64` (`src/etag.rs` lines 37-45): `decode4` over the
four 4-character groups of the 16-character tag. -/
def decode_base64 (s : List Nat) : Except Unit (List Nat) :=
  match decode4 (s.getD 0 0) (s.getD 1 0) (s.getD 2 0) (s.getD 3 0),
        decode4 (s.getD 4 0) (s.getD 5 0) (s.getD 6 0) (s.getD 7 0),
        decode4 (s.getD 8 0) (s.getD 9 0) (s.getD 10 0) (s.getD 11 0),
        decode4 (s.getD 12 0) (s.getD 13 0) (s.getD 14 0) (s.getD 15 0) with
  | .ok (v0, v1, v2), .ok (v3, v4, v5), .ok (v6, v7, v8), .ok (v9, v10, v11) =>
    .ok [v0, v1, v2, v3, v4, v5, v6, v7, v8, v9, v10, v11]
  | _, _, _, _ => .error ()

/-- `MIN_DATE` from `src/output.rs` line 23: 1990-01-01 as seconds since
the epoch; lower modification times are treated as "no sensible date". -/
def MIN_DATE : Nat := 631152000

/-- The `mod_time` binding of `Head::from_meta` (`src/output.rs` lines
177-186): with `config.last_modified` set, keep `metadata.modified()`
only when it is at or above the `MIN_DATE` floor; otherwise `None`.
This is the filter that produces the `mod_time` argument of
`from_meta`. -/
def mod_time_filter (last_modified_cfg : Bool) (modified : Option Nat) :
    Option Nat :=
  if last_modified_cfg then
    modified.bind (fun x => if x < MIN_DATE then none else some x)
  else none

/-- A concrete writer schedule: accept at most one byte of the first
chunk (a partial write), then accept everything. -/
def wsWit : List (List Nat → WriteRes) :=
  [fun buf => .ok (min 1 buf.length), fun buf => .ok buf.length]

/-! ### Helper lemmas -/

theorem U64_eq : U64 = 18446744073709551616 := rfl

theorem wsub64_of_le (a b : Nat) (h : b ≤ a) : wsub64 a b = a - b := if_pos h

theorem wadd64_of_lt (a b : Nat) (h : a + b < U64) : wadd64 a b = a + b :=
  Nat.mod_eq_of_lt h

theorem resolve_slice_cases (slc : Slice) (size : Nat) (rng : ContentRange)
    (h : resolve_slice (some slc) size = .ok (some rng)) :
    (∃ s e, slc = .FromTo s e ∧ ¬ size ≤ s ∧
      rng = { start := s,
              end_ := s + min (size - s) (sat_add64 (wsub64 e s) 1) - 1,
              file_size := size }) ∨
    (∃ n0, slc = .Last n0 ∧
      rng = (if n0 > size then
               { start := 0, end_ := 0 + size - 1, file_size := size }
             else
               { start := size - n0, end_ := size - n0 + n0 - 1,
                 file_size := size })) ∨
    (∃ s, slc = .AllFrom s ∧ ¬ size ≤ s ∧
      rng = { start := s, end_ := size - 1, file_size := size }) := by
  rcases slc with ⟨s, e⟩ | s | n
  · left
    refine ⟨s, e, rfl, ?_, ?_⟩ <;> by_cases hs : size ≤ s <;>
      simp [resolve_slice, hs] at h ⊢
    exact h.symm
  · right; right
    refine ⟨s, rfl, ?_, ?_⟩ <;> by_cases hs : size ≤ s <;>
      simp [resolve_slice, hs] at h ⊢
    exact h.symm
  · right; left
    refine ⟨n, rfl, ?_⟩
    by_cases hn : n > size <;> simp [resolve_slice, hn] at h ⊢ <;>
      exact h.symm

theorem clen_of_le (a b : Nat) (h : b ≤ a) (h2 : a - b + 1 < U64) :
    wadd64 (wsub64 a b) 1 = a - b + 1 := by
  rw [wsub64_of_le a b h]
  exact wadd64_of_lt _ _ h2

theorem clen_wrap_zero (a b : Nat) (hb : b = a + 1) :
    wadd64 (wsub64 a b) 1 = 0 := by
  subst hb
  unfold wsub64 wadd64
  rw [if_neg (by omega)]
  have h1 : a + 1 - a = 1 := by omega
  rw [h1]
  have h2 : U64 - 1 + 1 = U64 := by rw [U64_eq]
  rw [h2, Nat.mod_self]

theorem resolve_range_ok_some (slc : Option Slice) (size : Nat)
    (r : ContentRange) (clen : Nat)
    (h : resolve_range slc size = .ok (some r, clen)) :
    resolve_slice slc size = .ok (some r) ∧
    clen = if size = 0 then 0 else wadd64 (wsub64 r.end_ r.start) 1 := by
  unfold resolve_range at h
  rcases hs : resolve_slice slc size with e | rr
  · rw [hs] at h
    exact absurd h (by simp)
  · rw [hs] at h
    simp at h
    obtain ⟨h1, h2⟩ := h
    subst h1
    simp at h2
    exact ⟨rfl, h2.symm⟩

/-! ### Claim C3 -/

/-- Claim C3, counterexample: the parsed range `Last 0` (header
`Range: bytes=-0`) against a file of size 1 is accepted by `resolve_range`
yet yields `ContentRange` with `start = 1 > end_ = 0` (and a wrapped
content length of 0), violating `0 ≤ start ≤ end < file_size`; the
claim's only stated exception is `file_size = 0`. -/
theorem resolve_range_last_zero_counterexample :
    resolve_range (some (.Last 0)) 1
      = .ok (some { start := 1, end_ := 0, file_size := 1 }, 0) ∧
    ¬ rangeInvariantClaim (.Last 0) 1 := by
  constructor
  · decide
  · intro h
    have h2 := h { start := 1, end_ := 0, file_size := 1 } 0 (by decide)
    simp at h2

/-- Claim C3 (amended): for every parsed range (`FromTo x y` implies
`x ≤ y`) and file size below 2^64, an accepted range satisfies
`start ≤ end < file_size` and `start + content_length = end + 1`, except
(a) `file_size = 0`, where the range is `(0,0,0)` with length 0, and
(b) `Last 0` with `file_size > 0`, where the range is
`(file_size, file_size − 1)` and the wrapped length is 0. -/
theorem resolve_range_invariant_amended (slc : Slice) (size : Nat)
    (rng : ContentRange) (clen : Nat)
    (hwf : ∀ x y, slc = .FromTo x y → x ≤ y)
    (hsz : size < U64)
    (h : resolve_range (some slc) size = .ok (some rng, clen)) :
    (size = 0 → rng = { start := 0, end_ := 0, file_size := 0 } ∧ clen = 0) ∧
    (0 < size → slc ≠ .Last 0 →
      rng.start ≤ rng.end_ ∧ rng.end_ < size ∧ rng.start + clen = rng.end_ + 1) ∧
    (0 < size → slc = .Last 0 →
      rng = { start := size, end_ := size - 1, file_size := size } ∧ clen = 0) := by
  rw [U64_eq] at hsz
  obtain ⟨hslice, hclen⟩ := resolve_range_ok_some _ _ _ _ h
  rcases resolve_slice_cases _ _ _ hslice with
    ⟨s, e, rfl, hs, rfl⟩ | ⟨n0, rfl, hrng⟩ | ⟨s, rfl, hs, rfl⟩
  · -- FromTo s e
    have hse : s ≤ e := hwf s e rfl
    have h0 : size ≠ 0 := by omega
    dsimp only at hclen
    rw [wsub64_of_le e s hse] at hclen ⊢
    rw [if_neg h0] at hclen
    have h1 : 1 ≤ min (size - s) (sat_add64 (e - s) 1) := by
      simp only [sat_add64, U64_eq]
      omega
    have h2 : min (size - s) (sat_add64 (e - s) 1) ≤ size - s :=
      Nat.min_le_left _ _
    rw [wsub64_of_le _ s (by omega),
        wadd64_of_lt _ _ (by rw [U64_eq]; omega)] at hclen
    refine ⟨fun hz => absurd hz h0, fun hpos hne => ?_, fun hpos habs => by cases habs⟩
    refine ⟨by dsimp only; omega, by dsimp only; omega, by dsimp only; omega⟩
  · -- Last n0
    by_cases hz : size = 0
    · subst hz
      have hr : rng = { start := 0, end_ := 0, file_size := 0 } := by
        rcases Nat.eq_zero_or_pos n0 with h' | h'
        · subst h'
          simpa using hrng
        · rw [hrng, if_pos (by omega)]
      refine ⟨fun hzz => ⟨hr, ?_⟩, fun hpos _ => by omega, fun hpos _ => by omega⟩
      rw [if_pos rfl] at hclen
      exact hclen
    · by_cases hn0 : n0 = 0
      · subst hn0
        have hr : rng = { start := size, end_ := size - 1, file_size := size } := by
          rw [hrng, if_neg (by omega)]
          simp only [ContentRange.mk.injEq]
          refine ⟨by omega, by omega, trivial⟩
        refine ⟨fun hzz => absurd hzz hz, fun hpos hne => absurd rfl hne,
                fun hpos _ => ⟨hr, ?_⟩⟩
        rw [hr, if_neg hz] at hclen
        dsimp only at hclen
        rw [clen_wrap_zero _ _ (by omega)] at hclen
        exact hclen
      · refine ⟨fun hzz => absurd hzz hz, fun hpos hne => ?_,
                fun hpos habs => by cases habs; exact absurd rfl hn0⟩
        rw [if_neg hz] at hclen
        by_cases hgt : n0 > size
        · rw [hrng, if_pos hgt] at hclen ⊢
          dsimp only at hclen ⊢
          rw [clen_of_le _ _ (by omega) (by rw [U64_eq]; omega)] at hclen
          refine ⟨by omega, by omega, by omega⟩
        · rw [hrng, if_neg hgt] at hclen ⊢
          dsimp only at hclen ⊢
          rw [clen_of_le _ _ (by omega) (by rw [U64_eq]; omega)] at hclen
          refine ⟨by omega, by omega, by omega⟩
  · -- AllFrom s
    have h0 : size ≠ 0 := by omega
    dsimp only at hclen
    rw [if_neg h0, clen_of_le _ _ (by omega) (by rw [U64_eq]; omega)] at hclen
    refine ⟨fun hzz => absurd hzz h0, fun hpos hne => ?_, fun hpos habs => by cases habs⟩
    refine ⟨by dsimp only; omega, by dsimp only; omega, by dsimp only; omega⟩

/-- Claim C3 amended, witness: `FromTo 0 0` against a 5-byte file resolves
to bytes 0-0 with content length 1. -/
theorem resolve_range_invariant_amended_witness :
    resolve_range (some (.FromTo 0 0)) 5
      = .ok (some { start := 0, end_ := 0, file_size := 5 }, 1) ∧
    ((5 = 0 → ({ start := 0, end_ := 0, file_size := 5 } : ContentRange)
        = { start := 0, end_ := 0, file_size := 0 } ∧ 1 = 0) ∧
     (0 < 5 → Slice.FromTo 0 0 ≠ .Last 0 →
      ContentRange.start { start := 0, end_ := 0, file_size := 5 } ≤
        ContentRange.end_ { start := 0, end_ := 0, file_size := 5 } ∧
      ContentRange.end_ { start := 0, end_ := 0, file_size := 5 } < 5 ∧
      ContentRange.start { start := 0, end_ := 0, file_size := 5 } + 1 =
        ContentRange.end_ { start := 0, end_ := 0, file_size := 5 } + 1) ∧
     (0 < 5 → Slice.FromTo 0 0 = .Last 0 →
      ({ start := 0, end_ := 0, file_size := 5 } : ContentRange)
        = { start := 5, end_ := 5 - 1, file_size := 5 } ∧ 1 = 0)) :=
  ⟨by decide,
   resolve_range_invariant_amended (.FromTo 0 0) 5
     { start := 0, end_ := 0, file_size := 5 } 1
     (by intro x y hxy; cases hxy; exact Nat.le_refl 0)
     (by decide) (by decide)⟩

/-! ### Claim C1 -/

/-- Claim C1, code evaluation at a reachable failing input: with
`if_none_match` empty, `If-Modified-Since = 800000000` (1995-05-09) and a
file modification time of `1600000000` (2020-09-13) — above the 1990
`MIN_DATE` floor, so it passes the filter of `src/output.rs` lines
177-186 unchanged (first conjunct) — the file was modified strictly
after the date, yet `Head::from_meta` returns `NotModified`: the source
comparison `last_mod <= x` (`src/output.rs` line 207) is inverted
relative to the claim's (and the spec's) `mod_time ≤ if_modified_since`
(last conjunct). -/
theorem from_meta_modified_inverted :
    mod_time_filter true (some 1600000000) = some 1600000000 ∧
    MIN_DATE ≤ 800000000 ∧
    from_meta [] (some 800000000) (mod_time_filter true (some 1600000000))
        none none 5
      = .err (.NotModified notModifiedHead) ∧
    decide (1600000000 ≤ 800000000) = false := by
  exact ⟨by decide, by decide, by decide, by decide⟩

/-! ### Claim C10 -/

/-- Claim C10: the conditional short-circuit precedes range resolution.
Whenever the computed ETag is `some t` and `t` is among the parsed
`If-None-Match` tags, `Head::from_meta` returns the `NotModified` outcome
for every range (satisfiable or not) and every `If-Modified-Since` /
`mod_time` combination: `resolve_range` is never consulted. -/
theorem if_none_match_short_circuit (if_none : List Etag)
    (if_modified : Option Nat) (mod_time : Option Nat) (t : Etag)
    (range : Option Slice) (size : Nat) (h : t ∈ if_none) :
    from_meta if_none if_modified mod_time (some t) range size
      = .err (.NotModified notModifiedHead) := by
  have h1 : 0 < if_none.length := List.length_pos.mpr (List.ne_nil_of_mem h)
  have h2 : if_none.any (fun x => decide (some x = (some t : Option Etag)))
      = true := List.any_eq_true.mpr ⟨t, h, by simp⟩
  unfold from_meta
  rw [if_pos h1, if_pos h2]

/-- Claim C10, witness: the tag `[1]` matches, the range `AllFrom 100` is
unsatisfiable for a 5-byte file (`resolve_range` alone would give
`InvalidRange`), and the outcome is still `NotModified`. -/
theorem if_none_match_short_circuit_witness :
    (([1] : Etag) ∈ [([1] : Etag)]) ∧
    resolve_range (some (.AllFrom 100)) 5 = .error () ∧
    from_meta [[1]] none none (some [1]) (some (.AllFrom 100)) 5
      = .err (.NotModified notModifiedHead) :=
  ⟨by decide, by decide,
   if_none_match_short_circuit [[1]] none none [1] (some (.AllFrom 100)) 5
     (by decide)⟩

/-! ### Claim C2 -/

/-- Claim C2, code evaluation at the failing input: a `GET` with the
present and satisfiable range `bytes=0-0` against a 5-byte file produces
the `File` outcome (the spec's table maps `File` to 200), not
`FileRange`: `Input::try_path` wraps every successful `GET` in
`Output::File` (`src/input.rs` line 187) and never constructs
`Output::FileRange`; only `Head.range` records that the response is
partial. -/
theorem try_path_get_range_returns_file :
    try_path .Get [] none none none (some (.FromTo 0 0)) [7, 7, 7, 7, 7]
      = some (.File
          { head := { content_length := 1,
                      range := some { start := 0, end_ := 0, file_size := 5 },
                      not_modified := false },
            file := { data := [7, 7, 7, 7, 7], pos := 0 },
            bytes_left := 1 }) := by decide

/-! ### Claim C4 -/

/-- Claim C4, code evaluation at the failing inputs: the guards of the two
containment arms of `Slice::merge` are swapped.  Merging accumulator
`FromTo(0,100)` with the contained incoming `FromTo(10,20)` (header
`Range: bytes=0-100, 10-20`) replaces the accumulator by the smaller
incoming slice instead of leaving it unchanged, and merging accumulator
`FromTo(10,20)` with the containing incoming `FromTo(0,100)` leaves the
smaller accumulator instead of adopting the incoming slice; in both
directions the result is the contained slice `FromTo(10,20)`, not the
union `FromTo(0,100)` the claim requires. -/
theorem slice_merge_contained_swapped :
    Slice.merge (.FromTo 0 100) (.FromTo 10 20) = some (.FromTo 10 20) ∧
    Slice.merge (.FromTo 10 20) (.FromTo 0 100) = some (.FromTo 10 20) := by
  exact ⟨by decide, by decide⟩

/-! ### Claim C9 -/

/-- Claim C9, code evaluation: when the extension has no entry in the MIME
lookup table, or there is no extension, `Input::try_file` falls back to
the misspelled literal `"application/octed-stream"` (`src/input.rs` line
158), which differs from the claim's `"application/octet-stream"`. -/
theorem try_file_ctype_octed :
    try_file_ctype (fun _ => none) (some "zzz") = "application/octed-stream" ∧
    try_file_ctype (fun _ => none) none = "application/octed-stream" ∧
    decide ("application/octed-stream" = "application/octet-stream")
      = false := by
  exact ⟨rfl, rfl, by decide⟩

/-! ### Claim C5 -/

/-- Claim C5, code evaluation at the failing input: the q-value `"q="`
(bytes 113, 61) — nothing after the equals sign — drives
`parse_q` into the out-of-bounds index `qstr.as_bytes()[2]`
(`src/accept_encoding.rs` line 97, guarded only by
`starts_with("q=") && len() <= 7`), modelled as `Except.error ()`: the
parser panics instead of returning `None`.  The second conjunct threads
the panic through `add_chunk` for the header chunk `"gzip;q="`. -/
theorem parse_q_oob_panics :
    parse_q (some [113, 61]) = .error () ∧
    AEState.add_chunk AEState.new [103, 122, 105, 112, 59, 113, 61]
      = .error () := by
  exact ⟨by decide, by decide⟩

/-! ### Claim C6 -/

/-- Claim C6, counterexample: the header `Accept-Encoding: gzip,gzip,gzip`
is accepted, fills all three cells of the preference array with `Gzip`,
and the iteration yields `Identity` zero times, not exactly once. -/
theorem accept_encoding_identity_counterexample :
    AEState.add_header AEState.new
      [103, 122, 105, 112, 44, 103, 122, 105, 112, 44, 103, 122, 105, 112]
      = .ok { buf := [(.Gzip, 1000), (.Gzip, 1000), (.Gzip, 1000)],
              allow_any := true } ∧
    iterAE (AEState.done { buf := [(.Gzip, 1000), (.Gzip, 1000), (.Gzip, 1000)],
                           allow_any := true })
      = [.Gzip, .Gzip, .Gzip] ∧
    countIdentity [.Gzip, .Gzip, .Gzip] = 0 := by
  exact ⟨by decide, by decide, by decide⟩

theorem countIdentity_iterGo (l : List Encoding) :
    ∀ b, countIdentity (iterGo l b)
      = if b then 0 else if Encoding.Identity ∈ l then 1 else 0 := by
  induction l with
  | nil => intro b; cases b <;> simp [iterGo, countIdentity]
  | cons e rest ih =>
    intro b
    cases e <;> cases b <;>
      simp [iterGo, countIdentity, ih, List.mem_cons]

/-- Claim C6 (amended): for every parser state, the iteration yields
`Identity` at most once; and it yields `Identity` exactly once whenever
the preference array (`AEState.done`) contains `Identity` at all, i.e.
whenever fewer than three nonzero-q entries were accepted or `Identity`
is among the first three sorted entries.  (With duplicated encoding
tokens all three cells can be non-Identity, and `Identity` is then never
yielded — see the counterexample.) -/
theorem accept_encoding_identity_amended (st : AEState) :
    countIdentity (iterAE (AEState.done st)) ≤ 1 ∧
    (Encoding.Identity ∈ AEState.done st →
      countIdentity (iterAE (AEState.done st)) = 1) := by
  have h := countIdentity_iterGo (AEState.done st) false
  simp only [Bool.false_eq_true, if_false] at h
  unfold iterAE
  rw [h]
  constructor
  · split <;> omega
  · intro hmem
    rw [if_pos hmem]

/-- Claim C6 amended, witness: after `Accept-Encoding: gzip` the
preference array is `[Gzip, Identity, Identity]` and the iteration
yields `Identity` exactly once. -/
theorem accept_encoding_identity_amended_witness :
    Encoding.Identity ∈ AEState.done { buf := [(.Gzip, 1000)], allow_any := true } ∧
    countIdentity (iterAE
      (AEState.done { buf := [(.Gzip, 1000)], allow_any := true })) = 1 :=
  ⟨by decide,
   (accept_encoding_identity_amended
     { buf := [(.Gzip, 1000)], allow_any := true }).2 (by decide)⟩

/-! ### Claim C8 -/

theorem etag_render_test_vector :
    etag_render [181, 130, 83, 244, 162, 84, 35, 66, 151, 216, 142, 106]
      = [116, 89, 74, 84, 57, 75, 74, 85, 73, 48, 75, 88, 50, 73, 53, 113] := by
  decide

theorem decode_char_CHARS : ∀ k, k < 64 → decode_char (CHARS.getD k 0) = .ok k := by
  decide

theorem decode4_enc (b0 b1 b2 : Nat) (h0 : b0 < 256) (h1 : b1 < 256)
    (h2 : b2 < 256) :
    decode4 (CHARS.getD ((b0 * 65536 + b1 * 256 + b2) / 262144 % 64) 0)
            (CHARS.getD ((b0 * 65536 + b1 * 256 + b2) / 4096 % 64) 0)
            (CHARS.getD ((b0 * 65536 + b1 * 256 + b2) / 64 % 64) 0)
            (CHARS.getD ((b0 * 65536 + b1 * 256 + b2) % 64) 0)
      = .ok (b0, b1, b2) := by
  have e0 := decode_char_CHARS ((b0 * 65536 + b1 * 256 + b2) / 262144 % 64)
    (Nat.mod_lt _ (by omega))
  have e1 := decode_char_CHARS ((b0 * 65536 + b1 * 256 + b2) / 4096 % 64)
    (Nat.mod_lt _ (by omega))
  have e2 := decode_char_CHARS ((b0 * 65536 + b1 * 256 + b2) / 64 % 64)
    (Nat.mod_lt _ (by omega))
  have e3 := decode_char_CHARS ((b0 * 65536 + b1 * 256 + b2) % 64)
    (Nat.mod_lt _ (by omega))
  unfold decode4
  rw [e0, e1, e2, e3]
  have hrec : (b0 * 65536 + b1 * 256 + b2) / 262144 % 64 * 262144 +
      (b0 * 65536 + b1 * 256 + b2) / 4096 % 64 * 4096 +
      (b0 * 65536 + b1 * 256 + b2) / 64 % 64 * 64 +
      (b0 * 65536 + b1 * 256 + b2) % 64 = b0 * 65536 + b1 * 256 + b2 := by
    omega
  show Except.ok
      (((b0 * 65536 + b1 * 256 + b2) / 262144 % 64 * 262144 +
        (b0 * 65536 + b1 * 256 + b2) / 4096 % 64 * 4096 +
        (b0 * 65536 + b1 * 256 + b2) / 64 % 64 * 64 +
        (b0 * 65536 + b1 * 256 + b2) % 64) / 65536 % 256,
       ((b0 * 65536 + b1 * 256 + b2) / 262144 % 64 * 262144 +
        (b0 * 65536 + b1 * 256 + b2) / 4096 % 64 * 4096 +
        (b0 * 65536 + b1 * 256 + b2) / 64 % 64 * 64 +
        (b0 * 65536 + b1 * 256 + b2) % 64) / 256 % 256,
       ((b0 * 65536 + b1 * 256 + b2) / 262144 % 64 * 262144 +
        (b0 * 65536 + b1 * 256 + b2) / 4096 % 64 * 4096 +
        (b0 * 65536 + b1 * 256 + b2) / 64 % 64 * 64 +
        (b0 * 65536 + b1 * 256 + b2) % 64) % 256)
    = Except.ok (b0, b1, b2)
  rw [hrec]
  simp only [Except.ok.injEq, Prod.mk.injEq]
  refine ⟨by omega, by omega, by omega⟩

/-- Claim C8: for every 12-byte ETag value, rendering it with the
URL-safe base64 of `impl Display for Etag` and decoding the 16 characters
back through `Etag::decode_base64` recovers the original bytes, so an
`If-None-Match` hit implies textual equality with the tag the server
would have sent. -/
theorem etag_base64_roundtrip (a0 a1 a2 a3 a4 a5 a6 a7 a8 a9 a10 a11 : Nat)
    (h0 : a0 < 256) (h1 : a1 < 256) (h2 : a2 < 256) (h3 : a3 < 256)
    (h4 : a4 < 256) (h5 : a5 < 256) (h6 : a6 < 256) (h7 : a7 < 256)
    (h8 : a8 < 256) (h9 : a9 < 256) (h10 : a10 < 256) (h11 : a11 < 256) :
    decode_base64 (etag_render [a0, a1, a2, a3, a4, a5, a6, a7, a8, a9, a10, a11])
      = .ok [a0, a1, a2, a3, a4, a5, a6, a7, a8, a9, a10, a11] := by
  simp only [etag_render, base64triple, List.getD_cons_zero, List.getD_cons_succ,
    List.cons_append, List.nil_append, decode_base64]
  rw [decode4_enc a0 a1 a2 h0 h1 h2, decode4_enc a3 a4 a5 h3 h4 h5,
      decode4_enc a6 a7 a8 h6 h7 h8, decode4_enc a9 a10 a11 h9 h10 h11]

/-- Claim C8, witness: the round trip at the unit-test vector of
`src/etag.rs` (`W/"tYJT9KJUI0KX2I5q"`). -/
theorem etag_base64_roundtrip_witness :
    (181 : Nat) < 256 ∧
    decode_base64 (etag_render [181, 130, 83, 244, 162, 84, 35, 66, 151, 216, 142, 106])
      = .ok [181, 130, 83, 244, 162, 84, 35, 66, 151, 216, 142, 106] :=
  ⟨by decide,
   etag_base64_roundtrip 181 130 83 244 162 84 35 66 151 216 142 106
     (by decide) (by decide) (by decide) (by decide) (by decide) (by decide)
     (by decide) (by decide) (by decide) (by decide) (by decide) (by decide)⟩

/-! ### Claim C7 helper lemmas -/

theorem read_chunk_zero (s : FileWrapperM) (output : List Nat → WriteRes)
    (h : s.bytes_left = 0) : s.read_chunk output = (.ok 0, s) := by
  unfold FileWrapperM.read_chunk
  rw [if_pos h]

theorem read_chunk_ok (s : FileWrapperM) (output : List Nat → WriteRes) (n : Nat)
    (hbl : ¬ s.bytes_left = 0)
    (hout : output (s.file.read_data (min 65536 s.bytes_left)) = .ok n)
    (hn : n ≤ (s.file.read_data (min 65536 s.bytes_left)).length) :
    s.read_chunk output
      = (.ok n, { head := s.head,
                  file := { data := s.file.data, pos := s.file.pos + n },
                  bytes_left := s.bytes_left - n }) := by
  simp only [FileWrapperM.read_chunk, if_neg hbl, hout]
  split
  · simp only [FileSt.advance, FileSt.seek_back]
    have hp : s.file.pos + (s.file.read_data (min 65536 s.bytes_left)).length -
        ((s.file.read_data (min 65536 s.bytes_left)).length - n)
        = s.file.pos + n := by omega
    rw [hp]
  · rename_i hne
    have he : n = (s.file.read_data (min 65536 s.bytes_left)).length := by
      by_contra hc
      exact hne hc
    simp only [FileSt.advance, ← he]

theorem read_chunk_err (s : FileWrapperM) (output : List Nat → WriteRes)
    (hbl : ¬ s.bytes_left = 0)
    (hout : output (s.file.read_data (min 65536 s.bytes_left)) = .err) :
    s.read_chunk output
      = (.error (), { head := s.head,
                      file := { data := s.file.data, pos := s.file.pos },
                      bytes_left := s.bytes_left }) := by
  simp only [FileWrapperM.read_chunk, if_neg hbl, hout]
  simp only [FileSt.advance, FileSt.seek_back]
  have hp : s.file.pos + (s.file.read_data (min 65536 s.bytes_left)).length -
      (s.file.read_data (min 65536 s.bytes_left)).length = s.file.pos := by omega
  rw [hp]

theorem chunk_delivered_zero (s : FileWrapperM) (output : List Nat → WriteRes)
    (h : s.bytes_left = 0) : s.chunk_delivered output = [] := by
  unfold FileWrapperM.chunk_delivered
  rw [if_pos h]

theorem chunk_delivered_ok (s : FileWrapperM) (output : List Nat → WriteRes)
    (n : Nat) (hbl : ¬ s.bytes_left = 0)
    (hout : output (s.file.read_data (min 65536 s.bytes_left)) = .ok n) :
    s.chunk_delivered output
      = (s.file.read_data (min 65536 s.bytes_left)).take n := by
  simp only [FileWrapperM.chunk_delivered, if_neg hbl, hout]

theorem chunk_delivered_err (s : FileWrapperM) (output : List Nat → WriteRes)
    (hbl : ¬ s.bytes_left = 0)
    (hout : output (s.file.read_data (min 65536 s.bytes_left)) = .err) :
    s.chunk_delivered output = [] := by
  simp only [FileWrapperM.chunk_delivered, if_neg hbl, hout]

theorem read_chunk_zero_mk (head : HeadM) (data : List Nat) (pos : Nat)
    (output : List Nat → WriteRes) :
    FileWrapperM.read_chunk ⟨head, ⟨data, pos⟩, 0⟩ output
      = (.ok 0, ⟨head, ⟨data, pos⟩, 0⟩) :=
  read_chunk_zero ⟨head, ⟨data, pos⟩, 0⟩ output rfl

theorem read_chunk_ok_mk (head : HeadM) (data : List Nat) (pos bl : Nat)
    (output : List Nat → WriteRes) (n : Nat) (hbl : ¬ bl = 0)
    (hout : output ((data.drop pos).take (min 65536 bl)) = .ok n)
    (hn : n ≤ ((data.drop pos).take (min 65536 bl)).length) :
    FileWrapperM.read_chunk ⟨head, ⟨data, pos⟩, bl⟩ output
      = (.ok n, ⟨head, ⟨data, pos + n⟩, bl - n⟩) :=
  read_chunk_ok ⟨head, ⟨data, pos⟩, bl⟩ output n hbl hout hn

theorem read_chunk_err_mk (head : HeadM) (data : List Nat) (pos bl : Nat)
    (output : List Nat → WriteRes) (hbl : ¬ bl = 0)
    (hout : output ((data.drop pos).take (min 65536 bl)) = .err) :
    FileWrapperM.read_chunk ⟨head, ⟨data, pos⟩, bl⟩ output
      = (.error (), ⟨head, ⟨data, pos⟩, bl⟩) :=
  read_chunk_err ⟨head, ⟨data, pos⟩, bl⟩ output hbl hout

theorem chunk_delivered_zero_mk (head : HeadM) (data : List Nat) (pos : Nat)
    (output : List Nat → WriteRes) :
    FileWrapperM.chunk_delivered ⟨head, ⟨data, pos⟩, 0⟩ output = [] :=
  chunk_delivered_zero ⟨head, ⟨data, pos⟩, 0⟩ output rfl

theorem chunk_delivered_ok_mk (head : HeadM) (data : List Nat) (pos bl : Nat)
    (output : List Nat → WriteRes) (n : Nat) (hbl : ¬ bl = 0)
    (hout : output ((data.drop pos).take (min 65536 bl)) = .ok n) :
    FileWrapperM.chunk_delivered ⟨head, ⟨data, pos⟩, bl⟩ output
      = ((data.drop pos).take (min 65536 bl)).take n :=
  chunk_delivered_ok ⟨head, ⟨data, pos⟩, bl⟩ output n hbl hout

theorem chunk_delivered_err_mk (head : HeadM) (data : List Nat) (pos bl : Nat)
    (output : List Nat → WriteRes) (hbl : ¬ bl = 0)
    (hout : output ((data.drop pos).take (min 65536 bl)) = .err) :
    FileWrapperM.chunk_delivered ⟨head, ⟨data, pos⟩, bl⟩ output = [] :=
  chunk_delivered_err ⟨head, ⟨data, pos⟩, bl⟩ output hbl hout

theorem runChunks_spec (ws : List (List Nat → WriteRes)) :
    ∀ (head : HeadM) (data : List Nat) (pos bl : Nat),
    (∀ w ∈ ws, ∀ buf n, w buf = .ok n → n ≤ buf.length) →
    pos + bl ≤ data.length →
    (runChunks ⟨head, ⟨data, pos⟩, bl⟩ ws).1.sum ≤ bl ∧
    (runChunks ⟨head, ⟨data, pos⟩, bl⟩ ws).2.2
      = ⟨head, ⟨data, pos + (runChunks ⟨head, ⟨data, pos⟩, bl⟩ ws).1.sum⟩,
         bl - (runChunks ⟨head, ⟨data, pos⟩, bl⟩ ws).1.sum⟩ ∧
    (runChunks ⟨head, ⟨data, pos⟩, bl⟩ ws).2.1
      = (data.drop pos).take (runChunks ⟨head, ⟨data, pos⟩, bl⟩ ws).1.sum := by
  induction ws with
  | nil =>
    intro head data pos bl hW hinv
    simp [runChunks]
  | cons w ws ih =>
    intro head data pos bl hW hinv
    have hWw : ∀ buf n, w buf = .ok n → n ≤ buf.length :=
      hW w (List.mem_cons_self w ws)
    have hWs : ∀ w2 ∈ ws, ∀ buf n, w2 buf = .ok n → n ≤ buf.length :=
      fun w2 h2 => hW w2 (List.mem_cons_of_mem w h2)
    by_cases hbl : bl = 0
    · subst hbl
      have IH := ih head data pos 0 hWs hinv
      simp only [runChunks, read_chunk_zero_mk, chunk_delivered_zero_mk,
        List.nil_append, List.sum_cons, Nat.zero_add]
      exact IH
    · cases hout : w ((data.drop pos).take (min 65536 bl)) with
      | ok n =>
        have hn := hWw _ n hout
        have hbuflen : ((data.drop pos).take (min 65536 bl)).length
            = min 65536 bl := by
          simp only [List.length_take, List.length_drop]
          omega
        have hnle : n ≤ bl := by
          rw [hbuflen] at hn
          omega
        have IH := ih head data (pos + n) (bl - n) hWs (by omega)
        simp only [runChunks, read_chunk_ok_mk head data pos bl w n hbl hout hn,
          chunk_delivered_ok_mk head data pos bl w n hbl hout,
          List.sum_cons]
        obtain ⟨ih1, ih2, ih3⟩ := IH
        refine ⟨by omega, ?_, ?_⟩
        · rw [ih2]
          have hp : pos + n + (runChunks ⟨head, ⟨data, pos + n⟩, bl - n⟩ ws).1.sum
              = pos + (n + (runChunks ⟨head, ⟨data, pos + n⟩, bl - n⟩ ws).1.sum) := by
            omega
          have hb : bl - n - (runChunks ⟨head, ⟨data, pos + n⟩, bl - n⟩ ws).1.sum
              = bl - (n + (runChunks ⟨head, ⟨data, pos + n⟩, bl - n⟩ ws).1.sum) := by
            omega
          rw [hp, hb]
        · rw [ih3]
          have ht : ((data.drop pos).take (min 65536 bl)).take n
              = (data.drop pos).take n := by
            rw [List.take_take]
            have : min n (min 65536 bl) = n := by
              rw [hbuflen] at hn
              omega
            rw [this]
          rw [ht, List.take_add]
          have hd : (data.drop pos).drop n = data.drop (pos + n) := by
            rw [List.drop_drop]
          rw [hd]
      | err =>
        have IH := ih head data pos bl hWs hinv
        simp only [runChunks, read_chunk_err_mk head data pos bl w hbl hout,
          chunk_delivered_err_mk head data pos bl w hbl hout,
          List.nil_append]
        exact IH

/-! ### Claim C7 -/

/-- Claim C7: the `FileWrapper` chunked-read contract.
Part 1: once `bytes_left` is 0, `read_chunk` returns 0 and changes
nothing.  Part 2: a call whose writer accepts `n ≤ r` of the `r` offered
bytes returns `n`, leaves the cursor at `pos + r - (r - n)` (the partial
write seeks back the `r - n` unwritten bytes) and decreases `bytes_left`
by exactly `n`.  Part 3: for a wrapper built by `FileWrapper::new` over a
file that holds the promised bytes, any sequence of bounded writers
delivers `sum` bytes where `sum ≤ content_length`, the delivered bytes
are exactly the consecutive file bytes starting at the range start (no
byte twice), and when `bytes_left` reaches 0 the sum of successful
`read_chunk` return values equals `Head.content_length`. -/
theorem read_chunk_spec_total :
    (∀ (s : FileWrapperM) (output : List Nat → WriteRes),
       s.bytes_left = 0 → s.read_chunk output = (.ok 0, s)) ∧
    (∀ (head : HeadM) (data : List Nat) (pos bl : Nat)
       (output : List Nat → WriteRes) (n : Nat), ¬ bl = 0 →
       output ((data.drop pos).take (min 65536 bl)) = .ok n →
       n ≤ ((data.drop pos).take (min 65536 bl)).length →
       FileWrapperM.read_chunk ⟨head, ⟨data, pos⟩, bl⟩ output
         = (.ok n,
            ⟨head,
             ⟨data, pos + ((data.drop pos).take (min 65536 bl)).length
                - (((data.drop pos).take (min 65536 bl)).length - n)⟩,
             bl - n⟩)) ∧
    (∀ (head : HeadM) (data : List Nat) (ws : List (List Nat → WriteRes)),
       (∀ w ∈ ws, ∀ buf n, w buf = .ok n → n ≤ buf.length) →
       (∀ rng, head.range = some rng →
         rng.start ≤ rng.end_ ∧ rng.end_ < data.length ∧
         rng.start + head.content_length = rng.end_ + 1) →
       (head.range = none → head.content_length ≤ data.length) →
       (runChunks (FileWrapperM.new head data) ws).1.sum ≤ head.content_length ∧
       (runChunks (FileWrapperM.new head data) ws).2.1
         = (data.drop (FileWrapperM.new head data).file.pos).take
             ((runChunks (FileWrapperM.new head data) ws).1.sum) ∧
       ((runChunks (FileWrapperM.new head data) ws).2.2.bytes_left = 0 →
         (runChunks (FileWrapperM.new head data) ws).1.sum = head.content_length ∧
         (runChunks (FileWrapperM.new head data) ws).2.1.length
           = head.content_length)) := by
  refine ⟨read_chunk_zero, ?_, ?_⟩
  · intro head data pos bl output n hbl hout hn
    have h := read_chunk_ok_mk head data pos bl output n hbl hout hn
    have hp : pos + ((data.drop pos).take (min 65536 bl)).length
        - (((data.drop pos).take (min 65536 bl)).length - n) = pos + n := by
      omega
    rw [hp]
    exact h
  · intro head data ws hW hrng hnone
    rcases hr : head.range with _ | rng
    · have hnew : FileWrapperM.new head data
          = ⟨head, ⟨data, 0⟩, head.content_length⟩ := by
        simp [FileWrapperM.new, hr]
      have hle : head.content_length ≤ data.length := hnone hr
      have sp := runChunks_spec ws head data 0 head.content_length hW (by omega)
      obtain ⟨sp1, sp2, sp3⟩ := sp
      rw [hnew]
      refine ⟨sp1, ?_, ?_⟩
      · simpa using sp3
      · intro hdone
        rw [sp2] at hdone
        simp at hdone
        have hsum : (runChunks ⟨head, ⟨data, 0⟩, head.content_length⟩ ws).1.sum
            = head.content_length := by omega
        refine ⟨hsum, ?_⟩
        rw [sp3, hsum]
        simp only [List.length_take, List.length_drop]
        omega
    · obtain ⟨h1, h2, h3⟩ := hrng rng hr
      have hnew : FileWrapperM.new head data
          = ⟨head, ⟨data, rng.start⟩, rng.end_ - rng.start + 1⟩ := by
        simp [FileWrapperM.new, hr]
      have hbl0 : rng.end_ - rng.start + 1 = head.content_length := by omega
      have sp := runChunks_spec ws head data rng.start (rng.end_ - rng.start + 1)
        hW (by omega)
      obtain ⟨sp1, sp2, sp3⟩ := sp
      rw [hnew]
      refine ⟨by omega, ?_, ?_⟩
      · simpa using sp3
      · intro hdone
        rw [sp2] at hdone
        simp at hdone
        have hsum : (runChunks ⟨head, ⟨data, rng.start⟩,
            rng.end_ - rng.start + 1⟩ ws).1.sum = head.content_length := by
          omega
        refine ⟨hsum, ?_⟩
        rw [sp3, hsum]
        simp only [List.length_take, List.length_drop]
        omega

/-- Claim C7, witness: a 3-byte identity response (`content_length = 3`,
no range) against the schedule `wsWit` — a partial write of 1 byte, then
full writes — delivers `[1, 2]` with sum 3 and the exact file bytes. -/
theorem read_chunk_spec_total_witness :
    runChunks (FileWrapperM.new ⟨3, none, false⟩ [10, 20, 30]) wsWit
      = ([1, 2], [10, 20, 30], ⟨⟨3, none, false⟩, ⟨[10, 20, 30], 3⟩, 0⟩) ∧
    ((runChunks (FileWrapperM.new ⟨3, none, false⟩ [10, 20, 30]) wsWit).1.sum ≤ 3 ∧
     (runChunks (FileWrapperM.new ⟨3, none, false⟩ [10, 20, 30]) wsWit).2.1
       = ([10, 20, 30].drop
           (FileWrapperM.new ⟨3, none, false⟩ [10, 20, 30]).file.pos).take
           ((runChunks (FileWrapperM.new ⟨3, none, false⟩ [10, 20, 30]) wsWit).1.sum) ∧
     ((runChunks (FileWrapperM.new ⟨3, none, false⟩ [10, 20, 30]) wsWit).2.2.bytes_left
         = 0 →
       (runChunks (FileWrapperM.new ⟨3, none, false⟩ [10, 20, 30]) wsWit).1.sum = 3 ∧
       (runChunks (FileWrapperM.new ⟨3, none, false⟩ [10, 20, 30]) wsWit).2.1.length
         = 3)) :=
  ⟨by decide,
   read_chunk_spec_total.2.2 ⟨3, none, false⟩ [10, 20, 30] wsWit
     (by
       intro w hw buf n h
       simp only [wsWit, List.mem_cons, List.not_mem_nil, or_false] at hw
       rcases hw with rfl | rfl
       · cases h
         exact Nat.min_le_right 1 buf.length
       · cases h
         exact Nat.le_refl buf.length)
     (by intro rng h; cases h)
     (by intro h; decide)⟩
